import Mathlib

/-!
# Verification of the entity/component simulation core of `ijnek/gz-sim`

A shallow embedding of the core described by the repository's design
specification: the entity/component manager (ECM) with deferred
(tombstone-then-purge) destruction, the component storage contract, and the
stepping scheduler (`SimulationRunner`) that drives the
PreUpdate/Update/PostUpdate phase loop with a worker pool for the parallel
PostUpdate phase.

The repository excerpt ships only the declarations of the runner
(`src/src/SimulationRunner.hh`) and the component type declarations
(`src/include/gz/sim/components/LinearVelocitySeed.hh`); the bodies of
`SimulationRunner::Run`, the `EntityComponentManager` and the worker pool are
not part of the excerpt.  Definitions for those parts are therefore modelled
from the specification text and are marked `Modelled from the spec:` in their
doc comments.  Default member initializers of `SimulationRunner` are taken
directly from the header.
-/

namespace GzSim

/-! ## Component tags and values

Modelled from the spec §3: a component is a typed value (e.g. a 3-vector, a
boolean flag, a string) attached to one entity under a component-type tag;
identity is by tag, not by wrapped value type. -/

/-- Component-type tags.  `linearVelocitySeed` and `worldLinearVelocitySeed`
are the two tag classes declared in
`src/include/gz/sim/components/LinearVelocitySeed.hh`; `position` appears in
the spec's query scenario; `custom n` stands for any further registered tag. -/
inductive Tag
  | linearVelocitySeed
  | worldLinearVelocitySeed
  | position
  | custom (n : Nat)
deriving DecidableEq, Repr

/-- Wrapped component values (spec §3: a 3-vector, a boolean flag, a string). -/
inductive Val
  | vec3 (x y z : Int)
  | flag (b : Bool)
  | str (s : String)
deriving DecidableEq, Repr

/-- The value type a component type wraps. -/
inductive ValType
  | vector3d
  | boolean
  | stringT
deriving DecidableEq, Repr

/-- A registered component type: a tag together with the value type it wraps
(spec §3: "identity is by tag, not by wrapped type"). -/
structure ComponentTypeDecl where
  tag : Tag
  wraps : ValType
deriving DecidableEq, Repr

/-- From `src/include/gz/sim/components/LinearVelocitySeed.hh`:
`using LinearVelocitySeed = Component<math::Vector3d, class LinearVelocitySeedTag>`
— a linear velocity seed in the local frame, wrapping a 3-vector. -/
def LinearVelocitySeed : ComponentTypeDecl :=
  { tag := Tag.linearVelocitySeed, wraps := ValType.vector3d }

/-- From `src/include/gz/sim/components/LinearVelocitySeed.hh`:
`using WorldLinearVelocitySeed = Component<math::Vector3d, class WorldLinearVelocitySeedTag>`
— a linear velocity seed in the world frame, wrapping the same 3-vector
value type under a distinct tag. -/
def WorldLinearVelocitySeed : ComponentTypeDecl :=
  { tag := Tag.worldLinearVelocitySeed, wraps := ValType.vector3d }

/-! ## Component storage records -/

/-- Modelled from the spec §4.1: per-entity change marker of a component
record — none / created-this-epoch / modified-this-epoch (removed-this-epoch
records are the tombstoned records held in `ECM.ctomb`). -/
inductive ChangeMark
  | unchanged
  | created
  | modified
deriving DecidableEq, Repr

/-- Modelled from the spec §3/§4.1: one live component record — a tagged value
attached to exactly one owning entity, with its change marker. -/
structure CompRec where
  owner : Nat
  tag : Tag
  value : Val
  mark : ChangeMark
deriving DecidableEq, Repr

/-! ## The entity/component manager

Modelled from the spec §3/§4.2: the ECM owns the master entity set and all
component storage; entity removal is buffered as a tombstone and physically
purged by `processRemovals`.  Tombstoned-but-not-yet-purged entities stay
structurally valid and queryable (spec §9 design note). -/

/-- Modelled from the spec: the `EntityComponentManager` state.
`nextId` is the next never-reused identifier; `alive` lists the created and
not-yet-purged entities in creation order; `tomb` lists the entities marked
for removal (pending purge); `comps` holds the live component records;
`ctomb` holds the tombstoned (removed-this-epoch) component records. -/
structure ECM where
  nextId : Nat
  alive : List Nat
  tomb : List Nat
  comps : List CompRec
  ctomb : List CompRec
deriving DecidableEq, Repr

/-- The ECM of a freshly constructed runner: no entities, no components. -/
def ecm0 : ECM :=
  { nextId := 0, alive := [], tomb := [], comps := [], ctomb := [] }

/-- Modelled from the spec §4.2 `CreateEntity`: allocates a fresh, never-reused
identifier; the entity is immediately query-visible. -/
def createEntity (s : ECM) : ECM × Nat :=
  ({ s with nextId := s.nextId + 1, alive := s.alive ++ [s.nextId] }, s.nextId)

/-- Modelled from the spec §4.2 `RemoveEntity`: marks `e` tombstoned; it stays
visible to queries as "pending removal" until `processRemovals` runs; double
removal (or removal of an unknown id) is a no-op. -/
def removeEntity (s : ECM) (e : Nat) : ECM :=
  if e ∈ s.alive ∧ e ∉ s.tomb then { s with tomb := s.tomb ++ [e] } else s

/-- Modelled from the spec §4.2 `ProcessRemovals`: physically purges all
tombstoned entities and their components and drops the removed-this-epoch
component tombstones. -/
def processRemovals (s : ECM) : ECM :=
  { s with
    alive := s.alive.filter (fun e => e ∉ s.tomb)
    tomb := []
    comps := s.comps.filter (fun c => c.owner ∉ s.tomb)
    ctomb := [] }

/-- Modelled from the spec §4.1 `ClearEpoch`: resets all change markers to
"none" without touching the tombstoned entries. -/
def clearEpoch (s : ECM) : ECM :=
  { s with comps := s.comps.map (fun c => { c with mark := ChangeMark.unchanged }) }

/-- `EntityCount` (declared in `src/src/SimulationRunner.hh`): the number of
entities on the runner — here the created, not-yet-purged entities. -/
def entityCount (s : ECM) : Nat :=
  s.alive.length

/-- Modelled from the spec: whether entity `e` currently holds a live
component of tag `t`. -/
def hasTag (s : ECM) (e : Nat) (t : Tag) : Bool :=
  s.comps.any (fun c => c.owner == e && c.tag == t)

/-- Modelled from the spec §7: the error taxonomy of the component contract
(`DuplicateComponent`, `UnknownEntity`). -/
inductive EcmError
  | duplicateComponent
  | unknownEntity
deriving DecidableEq, Repr

/-- Modelled from the spec §4.1/§4.2 `Add` / `CreateComponent`: fails with
`UnknownEntity` if the entity was never created or has been purged, with
`DuplicateComponent` if the entity already carries the tag; otherwise appends
a record marked created-this-epoch.  Creating a component on a
not-yet-purged-but-tombstoned entity succeeds (spec §4.2 edge case). -/
def addComponent (s : ECM) (e : Nat) (t : Tag) (v : Val) : Except EcmError ECM :=
  if e ∈ s.alive then
    if hasTag s e t then
      Except.error EcmError.duplicateComponent
    else
      Except.ok { s with comps := s.comps ++ [⟨e, t, v, ChangeMark.created⟩] }
  else
    Except.error EcmError.unknownEntity

/-- Modelled from the spec §4.1 `Remove` / §4.2 `RemoveComponent`: marks the
component tombstoned (moves the record to the removed-this-epoch set); a no-op
— not an error — if absent. -/
def removeComponent (s : ECM) (e : Nat) (t : Tag) : ECM :=
  { s with
    comps := s.comps.filter (fun c => !(c.owner == e && c.tag == t))
    ctomb := s.ctomb ++ s.comps.filter (fun c => c.owner == e && c.tag == t) }

/-- Modelled from the spec §4.2 `Component` lookup: the current value of the
live component of tag `t` on `e`, if any. -/
def getComponent (s : ECM) (e : Nat) (t : Tag) : Option Val :=
  (s.comps.find? (fun c => c.owner == e && c.tag == t)).map (fun c => c.value)

/-- Modelled from the spec §4.2 `EntitiesMatching`: an entity qualifies iff it
holds every required tag and none of the excluded tags, evaluated against
current (not buffered) state; the scan runs over the master entity list in
its stored (creation) order, so the order is stable within one iteration. -/
def entitiesMatching (s : ECM) (req exc : List Tag) : List Nat :=
  s.alive.filter (fun e =>
    req.all (fun t => hasTag s e t) && exc.all (fun t => !hasTag s e t))

/-- Test helper: `addComponent` collapsing the error case to the unchanged
state, for building concrete scenario states. -/
def addC (s : ECM) (e : Nat) (t : Tag) (v : Val) : ECM :=
  (addComponent s e t v).toOption.getD s

/-! ## Systems and the runner

`src/src/SimulationRunner.hh` declares the runner's interface (`Run`, `Stop`,
`Running`, `IterationCount`, `EntityCount`, `SystemCount`, `SetUpdatePeriod`)
and its state (`running`, `runMutex`, `systems`, `entityCompMgr`,
`workerPool`, `sleepOffset`, `updatePeriod`, `iterations`); the loop body is
modelled from the spec §4.5/§5. -/

/-- Modelled from the spec §3 `UpdateInfo`: simulated elapsed time since the
last step, cumulative simulated time, a paused flag and the iteration counter,
passed by value into every phase callback.  Durations are in nanoseconds. -/
structure UpdateInfo where
  dt : Nat
  simTime : Nat
  paused : Bool
  iteration : Nat

/-- Modelled from the spec §3/§4.3: a system record — a behavior module with
its declared capability bits and its phase callbacks.  `PreUpdate` and
`Update` may mutate the ECM; `PostUpdate` is read-only with respect to the
ECM (enforced here by its type) and aggregates into the system's own
`counter` state. -/
structure SystemRec where
  hasPreUpdate : Bool
  hasUpdate : Bool
  hasPostUpdate : Bool
  preUpdateFn : UpdateInfo → ECM → ECM
  updateFn : UpdateInfo → ECM → ECM
  postUpdateFn : UpdateInfo → ECM → Nat → Nat
  counter : Nat

/-- Modelled from the spec §3 `Runner` state, with the default member
initializers taken from `src/src/SimulationRunner.hh`
(`running{false}`, `sleepOffset{0}`, `updatePeriod{2ms}`, `iterations{0}`). -/
structure Runner where
  running : Bool
  iterations : Nat
  simTime : Nat
  sleepOffset : Int
  updatePeriod : Nat
  ecm : ECM
  systems : List SystemRec

/-- Nanoseconds in one second, to express the update rate of a period. -/
def nsPerSecond : Nat := 1000000000

/-- Nanoseconds in `2ms`, the header's default update period. -/
def twoMilliseconds : Nat := 2000000

/-- From `src/src/SimulationRunner.hh`: a freshly constructed runner with the
header's default member initializers — `running{false}`, `sleepOffset{0}`,
`updatePeriod{2ms}` (500 Hz), `iterations{0}` — holding the given systems
and ECM. -/
def mkRunner (systems : List SystemRec) (ecm : ECM) : Runner :=
  { running := false
    iterations := 0
    simTime := 0
    sleepOffset := 0
    updatePeriod := twoMilliseconds
    ecm := ecm
    systems := systems }

/-- `SimulationRunner::Running` from the header: whether simulation is
stepping forward. -/
def Runner.RunningFlag (r : Runner) : Bool := r.running

/-- `SimulationRunner::IterationCount` from the header: the number of
iterations the server has executed. -/
def Runner.IterationCount (r : Runner) : Nat := r.iterations

/-- `SimulationRunner::EntityCount` from the header: the number of entities
on the runner. -/
def Runner.EntityCount (r : Runner) : Nat := entityCount r.ecm

/-- `SimulationRunner::SystemCount` from the header: the number of systems
on the runner. -/
def Runner.SystemCount (r : Runner) : Nat := r.systems.length

/-- `SimulationRunner::SetUpdatePeriod` from the header: sets the wall-clock
time between updates. -/
def Runner.SetUpdatePeriod (r : Runner) (p : Nat) : Runner :=
  { r with updatePeriod := p }

/-- The `UpdateInfo` passed into every phase callback of one iteration. -/
def mkInfo (r : Runner) : UpdateInfo :=
  { dt := r.updatePeriod
    simTime := r.simTime + r.updatePeriod
    paused := false
    iteration := r.iterations }

/-- Modelled from the spec §4.5: the sequential PreUpdate phase — each system
implementing PreUpdate runs once, in registration order, threading the ECM. -/
def runPreUpdates (info : UpdateInfo) (systems : List SystemRec) (ecm : ECM) : ECM :=
  systems.foldl (fun acc s => if s.hasPreUpdate then s.preUpdateFn info acc else acc) ecm

/-- Modelled from the spec §4.5: the sequential Update phase — each system
implementing Update runs once, in registration order, threading the ECM. -/
def runUpdates (info : UpdateInfo) (systems : List SystemRec) (ecm : ECM) : ECM :=
  systems.foldl (fun acc s => if s.hasUpdate then s.updateFn info acc else acc) ecm

/-- One system's PostUpdate against a fixed ECM snapshot: systems not
implementing PostUpdate are untouched. -/
def postApply (info : UpdateInfo) (ecm : ECM) (s : SystemRec) : SystemRec :=
  if s.hasPostUpdate then { s with counter := s.postUpdateFn info ecm s.counter } else s

/-- Modelled from the spec §4.4/§4.5: the PostUpdate phase submitted as one
worker-pool batch.  Every callback reads the same ECM snapshot (PostUpdate is
read-only by contract) and writes only its own system's state, so the batch
is the independent image of `postApply` over the system list. -/
def runPostBatch (info : UpdateInfo) (ecm : ECM) (systems : List SystemRec) :
    List SystemRec :=
  systems.map (postApply info ecm)

/-- One scheduled unit of the PostUpdate batch: run system `i`'s PostUpdate
callback in place; out-of-range indices do nothing. -/
def applyPostAt (info : UpdateInfo) (ecm : ECM) (l : List SystemRec) (i : Nat) :
    List SystemRec :=
  match l[i]? with
  | some s => l.set i (postApply info ecm s)
  | none => l

/-- Modelled from the spec §4.4: one interleaving of the worker-pool batch —
the PostUpdate units execute one after another in the scheduler-chosen order
`order`, each against the same read-only ECM snapshot. -/
def runPostSched (info : UpdateInfo) (ecm : ECM) (systems : List SystemRec)
    (order : List Nat) : List SystemRec :=
  order.foldl (applyPostAt info ecm) systems

/-- Modelled from the spec §4.5: one whole iteration of the step loop —
PreUpdate phase, Update phase, PostUpdate phase via the worker pool, ECM
maintenance (apply buffered removals, advance the change-tracking epoch),
advance of simulated time, pacing, and the iteration counter increment.
(Wall-clock sleep has no observable effect in the model beyond its place in
the phase order.) -/
def stepIteration (r : Runner) : Runner :=
  let info := mkInfo r
  let ecm1 := runPreUpdates info r.systems r.ecm
  let ecm2 := runUpdates info r.systems ecm1
  let systems2 := runPostBatch info ecm2 r.systems
  let ecm3 := clearEpoch (processRemovals ecm2)
  { r with
    ecm := ecm3
    systems := systems2
    simTime := r.simTime + r.updatePeriod
    iterations := r.iterations + 1 }

/-- Modelled from the spec §4.5: the step loop of `Run`.  `stop` gives the
state of the atomic stop flag as observed at the iteration boundary when the
iteration counter has the given value; the flag is checked only at the
boundary, so an executing iteration always runs to completion.  `target` is
the requested iteration count (`0` = run until stopped), `start` the counter
value when `Run` was entered; `fuel` bounds the recursion (any value at least
the number of iterations actually executed gives the loop's true result). -/
def runLoop (stop : Nat → Bool) (target start : Nat) :
    Nat → Runner → Runner
  | 0, r => r
  | fuel + 1, r =>
    if target ≠ 0 ∧ start + target ≤ r.iterations then r
    else if stop r.iterations then r
    else runLoop stop target start fuel (stepIteration r)

/-- Modelled from the spec §4.5/§7: the outcome of a `Run` call —
`alreadyRunning` is the precondition violation of a concurrent `Run`;
otherwise the run either completed the full requested count or was stopped
early. -/
inductive RunOutcome
  | alreadyRunning
  | completedFull
  | stoppedEarly
deriving DecidableEq, Repr

/-- Modelled from the spec §4.5 `Run(iterations)`: a concurrent call (the
runner is already running) fails with `AlreadyRunning` immediately and
without side effects; otherwise the runner enters the running state, the
step loop runs until the requested count is reached or the stop flag is
observed, the running flag is dropped, and the call reports whether it
completed the full count. -/
def runnerRun (stop : Nat → Bool) (target fuel : Nat) (r : Runner) :
    Runner × RunOutcome :=
  if r.running then (r, RunOutcome.alreadyRunning)
  else
    let start := r.iterations
    let r2 := runLoop stop target start fuel { r with running := true }
    ({ r2 with running := false },
     if target ≠ 0 ∧ start + target ≤ r2.iterations then RunOutcome.completedFull
     else RunOutcome.stoppedEarly)

/-! ## Observable events of one iteration

To settle the temporal ordering claim, the phase runners are replayed with an
event trace: each system callback invocation, the ECM maintenance step, the
pacing sleep and the counter increment appear as events in execution order. -/

/-- An observable event of one step-loop iteration; system callbacks carry
the registration index of the system invoked. -/
inductive Ev
  | preUpdate (i : Nat)
  | update (i : Nat)
  | postUpdate (i : Nat)
  | ecmMaintenance
  | pacingSleep
  | counterIncrement
deriving DecidableEq, Repr

/-- The PreUpdate phase over the registration-indexed system list, emitting
one event per invoked callback, in execution order. -/
def runPreUpdatesT (info : UpdateInfo) :
    List (Nat × SystemRec) → ECM → ECM × List Ev
  | [], ecm => (ecm, [])
  | (i, s) :: rest, ecm =>
    if s.hasPreUpdate then
      let res := runPreUpdatesT info rest (s.preUpdateFn info ecm)
      (res.1, Ev.preUpdate i :: res.2)
    else runPreUpdatesT info rest ecm

/-- The Update phase over the registration-indexed system list, emitting one
event per invoked callback, in execution order. -/
def runUpdatesT (info : UpdateInfo) :
    List (Nat × SystemRec) → ECM → ECM × List Ev
  | [], ecm => (ecm, [])
  | (i, s) :: rest, ecm =>
    if s.hasUpdate then
      let res := runUpdatesT info rest (s.updateFn info ecm)
      (res.1, Ev.update i :: res.2)
    else runUpdatesT info rest ecm

/-- The events of the PostUpdate worker-pool batch, one per system
implementing PostUpdate, indexed in registration order. -/
def postBatchEvents (systems : List SystemRec) : List Ev :=
  (systems.enum.filter (fun p => p.2.hasPostUpdate)).map (fun p => Ev.postUpdate p.1)

/-- The full event trace of one iteration of the step loop, in execution
order: the PreUpdate phase, the Update phase, the PostUpdate batch, then ECM
maintenance, the pacing sleep and the iteration counter increment. -/
def iterationTrace (r : Runner) : List Ev :=
  (runPreUpdatesT (mkInfo r) r.systems.enum r.ecm).2
    ++ (runUpdatesT (mkInfo r) r.systems.enum
        (runPreUpdatesT (mkInfo r) r.systems.enum r.ecm).1).2
    ++ postBatchEvents r.systems
    ++ [Ev.ecmMaintenance, Ev.pacingSleep, Ev.counterIncrement]

/-- The registration indices of the systems satisfying `p`, in registration
order. -/
def capIdx (p : SystemRec → Bool) (systems : List SystemRec) : List Nat :=
  (systems.enum.filter (fun q => p q.2)).map (fun q => q.1)

/-! ## Operation sequences on the ECM -/

/-- An entity-lifecycle call: `CreateEntity` or `RemoveEntity e`. -/
inductive EntityOp
  | create
  | remove (e : Nat)
deriving DecidableEq, Repr

/-- Apply one entity-lifecycle call. -/
def applyEntityOp (s : ECM) : EntityOp → ECM
  | EntityOp.create => (createEntity s).1
  | EntityOp.remove e => removeEntity s e

/-- Apply a finite sequence of entity-lifecycle calls in order. -/
def runEntityOps (s : ECM) (ops : List EntityOp) : ECM :=
  ops.foldl applyEntityOp s

/-- The number of `CreateEntity` calls in the sequence (each creates a
distinct, never-reused entity). -/
def createdCount : List EntityOp → Nat
  | [] => 0
  | EntityOp.create :: rest => createdCount rest + 1
  | EntityOp.remove _ :: rest => createdCount rest

/-- The arguments of the `RemoveEntity` calls of the sequence, in order. -/
def removedIds : List EntityOp → List Nat
  | [] => []
  | EntityOp.create :: rest => removedIds rest
  | EntityOp.remove e :: rest => e :: removedIds rest

/-- A sequence starting from a state with `k` entities created so far is
well-formed when every `RemoveEntity` call targets an already-created
entity. -/
def validOps : Nat → List EntityOp → Bool
  | _, [] => true
  | k, EntityOp.create :: rest => validOps (k + 1) rest
  | k, EntityOp.remove e :: rest => decide (e < k) && validOps k rest

/-- A general ECM call, for characterising the states the ECM can reach. -/
inductive EcmOp
  | createE
  | removeE (e : Nat)
  | addComp (e : Nat) (t : Tag) (v : Val)
  | removeComp (e : Nat) (t : Tag)
  | procRemovals
  | clearEp
deriving DecidableEq, Repr

/-- Apply one general ECM call; a failing `addComponent` (a surfaced
contract violation, spec §7) leaves the state unchanged. -/
def applyEcmOp (s : ECM) : EcmOp → ECM
  | EcmOp.createE => (createEntity s).1
  | EcmOp.removeE e => removeEntity s e
  | EcmOp.addComp e t v =>
    match addComponent s e t v with
    | Except.ok s2 => s2
    | Except.error _ => s
  | EcmOp.removeComp e t => removeComponent s e t
  | EcmOp.procRemovals => processRemovals s
  | EcmOp.clearEp => clearEpoch s

/-- Apply a finite sequence of general ECM calls in order. -/
def runEcmOps (s : ECM) (ops : List EcmOp) : ECM :=
  ops.foldl applyEcmOp s

/-- The (owner, tag) attachment keys of the live component records. -/
def compKeys (s : ECM) : List (Nat × Tag) :=
  s.comps.map (fun c => (c.owner, c.tag))

/-! ## Concrete states for the spec's scenarios -/

/-- The spec §8 query scenario state: three entities created (ids 0, 1, 2)
with tag `position` attached to the first two only. -/
def scenarioECM : ECM :=
  let s1 := (createEntity ecm0).1
  let s2 := (createEntity s1).1
  let s3 := (createEntity s2).1
  addC (addC s3 0 Tag.position (Val.vec3 0 0 0)) 1 Tag.position (Val.vec3 1 0 0)

/-- A concrete PostUpdate-only system aggregating the entity count into its
own counter (read-only with respect to the ECM). -/
def countingSystem : SystemRec :=
  { hasPreUpdate := false
    hasUpdate := false
    hasPostUpdate := true
    preUpdateFn := fun _ e => e
    updateFn := fun _ e => e
    postUpdateFn := fun _ ecm c => c + entityCount ecm
    counter := 0 }

/-- A second concrete PostUpdate-only system aggregating the iteration number
into its own counter (read-only with respect to the ECM). -/
def sumIterSystem : SystemRec :=
  { hasPreUpdate := false
    hasUpdate := false
    hasPostUpdate := true
    preUpdateFn := fun _ e => e
    updateFn := fun _ e => e
    postUpdateFn := fun info _ c => c + info.iteration
    counter := 0 }

/-- One entity carrying both velocity-seed components — distinct tags
wrapping the same 3-vector value type, with different values. -/
def coexistECM : ECM :=
  addC (addC (createEntity ecm0).1 0 Tag.linearVelocitySeed (Val.vec3 1 2 3))
    0 Tag.worldLinearVelocitySeed (Val.vec3 4 5 6)

/-! ## Theorems -/

/-- Entity `e` holds tag `t` exactly when `(e, t)` is a live attachment key. -/
theorem hasTag_iff_mem_compKeys (s : ECM) (e : Nat) (t : Tag) :
    hasTag s e t = true ↔ (e, t) ∈ compKeys s := by
  rw [hasTag, List.any_eq_true, compKeys]
  constructor
  · rintro ⟨c, hc, hpred⟩
    rw [Bool.and_eq_true, beq_iff_eq, beq_iff_eq] at hpred
    exact List.mem_map.mpr ⟨c, hc, by rw [hpred.1, hpred.2]⟩
  · intro hmem
    obtain ⟨c, hc, heq⟩ := List.mem_map.mp hmem
    refine ⟨c, hc, ?_⟩
    rw [Bool.and_eq_true, beq_iff_eq, beq_iff_eq]
    exact ⟨congrArg Prod.fst heq, congrArg Prod.snd heq⟩

/-- Filtering the live component records preserves uniqueness of the
attachment keys. -/
theorem compKeys_filter_nodup (s : ECM) (p : CompRec → Bool)
    (h : (compKeys s).Nodup) :
    (List.map (fun c : CompRec => (c.owner, c.tag)) (s.comps.filter p)).Nodup :=
  List.Nodup.sublist (List.Sublist.map _ (List.filter_sublist _)) h

/-- Every single ECM call preserves uniqueness of the live attachment keys. -/
theorem compKeys_nodup_applyEcmOp (s : ECM) (op : EcmOp)
    (h : (compKeys s).Nodup) : (compKeys (applyEcmOp s op)).Nodup := by
  cases op with
  | createE => exact h
  | removeE e =>
    rw [applyEcmOp, removeEntity]
    split
    · exact h
    · exact h
  | addComp e t v =>
    rw [applyEcmOp]
    cases haddr : addComponent s e t v with
    | error err => exact h
    | ok s2 =>
      rw [addComponent] at haddr
      by_cases halive : e ∈ s.alive
      · rw [if_pos halive] at haddr
        by_cases htag : hasTag s e t = true
        · rw [if_pos htag] at haddr
          simp at haddr
        · rw [if_neg htag] at haddr
          injection haddr with heq
          subst heq
          rw [compKeys]
          simp only [List.map_append, List.map_cons, List.map_nil]
          rw [List.nodup_append]
          refine ⟨h, List.nodup_singleton _, ?_⟩
          intro a ha hb
          rw [List.mem_singleton] at hb
          subst hb
          exact htag ((hasTag_iff_mem_compKeys s e t).mpr ha)
      · rw [if_neg halive] at haddr
        simp at haddr
  | removeComp e t =>
    show (List.map (fun c : CompRec => (c.owner, c.tag))
      (s.comps.filter fun c => !(c.owner == e && c.tag == t))).Nodup
    exact compKeys_filter_nodup s _ h
  | procRemovals =>
    show (List.map (fun c : CompRec => (c.owner, c.tag))
      (s.comps.filter fun c => c.owner ∉ s.tomb)).Nodup
    exact compKeys_filter_nodup s _ h
  | clearEp =>
    show (compKeys (clearEpoch s)).Nodup
    have heq : compKeys (clearEpoch s) = compKeys s := by
      rw [compKeys, clearEpoch, List.map_map]
      rfl
    rw [heq]
    exact h

/-- Two duplicate-free lists of naturals with the same members have the same
length. -/
theorem length_eq_of_nodup_of_mem_iff (l1 l2 : List Nat)
    (h1 : l1.Nodup) (h2 : l2.Nodup) (h : ∀ x, x ∈ l1 ↔ x ∈ l2) :
    l1.length = l2.length := by
  rw [← List.toFinset_card_of_nodup h1, ← List.toFinset_card_of_nodup h2]
  congr 1
  ext a
  simp only [List.mem_toFinset]
  exact h a

/-- Purging a duplicate-free set of tombstoned ids below `k` from `range k`
leaves `k` minus the number of tombstones. -/
theorem length_filter_not_mem_range (k : Nat) (l : List Nat)
    (hnd : l.Nodup) (hlt : ∀ e ∈ l, e < k) :
    ((List.range k).filter (fun e => e ∉ l)).length = k - l.length := by
  have hsplit := List.length_eq_length_filter_add
    (l := List.range k) (fun e => decide (e ∈ l))
  have hcongr : (List.range k).filter (fun e => e ∉ l) =
      (List.range k).filter (fun e => !decide (e ∈ l)) := by
    simp only [decide_not]
  have hmemlen : ((List.range k).filter (fun e => decide (e ∈ l))).length =
      l.length := by
    apply length_eq_of_nodup_of_mem_iff
    · exact List.Nodup.sublist (List.filter_sublist _) (List.nodup_range k)
    · exact hnd
    · intro x
      simp only [List.mem_filter, List.mem_range, decide_eq_true_eq]
      exact ⟨fun h => h.2, fun hx => ⟨hlt x hx, hx⟩⟩
  rw [List.length_range] at hsplit
  rw [hcongr]
  omega

/-- Running a well-formed entity-op sequence from a canonical state: the id
counter advances by the number of creates, the master entity list is exactly
the initial segment of created ids, and the tombstone list stays
duplicate-free, bounded, and holds exactly the prior tombstones plus the
removed ids. -/
theorem runEntityOps_spec (ops : List EntityOp) :
    ∀ s : ECM, validOps s.nextId ops = true →
    s.alive = List.range s.nextId →
    s.tomb.Nodup → (∀ e ∈ s.tomb, e < s.nextId) →
    (runEntityOps s ops).nextId = s.nextId + createdCount ops ∧
    (runEntityOps s ops).alive = List.range (s.nextId + createdCount ops) ∧
    (runEntityOps s ops).tomb.Nodup ∧
    (∀ x, x ∈ (runEntityOps s ops).tomb ↔ x ∈ s.tomb ∨ x ∈ removedIds ops) ∧
    (∀ x ∈ (runEntityOps s ops).tomb, x < s.nextId + createdCount ops) := by
  induction ops with
  | nil =>
    intro s hv halive hnd hlt
    refine ⟨by simp [runEntityOps, createdCount], ?_, hnd, ?_, ?_⟩
    · simpa [runEntityOps, createdCount] using halive
    · intro x
      simp [runEntityOps, removedIds]
    · intro x hx
      simpa [runEntityOps, createdCount] using hlt x hx
  | cons op rest ih =>
    intro s hv halive hnd hlt
    have hfold : runEntityOps s (op :: rest) =
        runEntityOps (applyEntityOp s op) rest := rfl
    cases op with
    | create =>
      rw [validOps] at hv
      have hs1 : applyEntityOp s EntityOp.create =
          { s with nextId := s.nextId + 1, alive := s.alive ++ [s.nextId] } := rfl
      have halive1 : s.alive ++ [s.nextId] = List.range (s.nextId + 1) := by
        rw [halive, List.range_succ]
      obtain ⟨h1, h2, h3, h4, h5⟩ :=
        ih { s with nextId := s.nextId + 1, alive := s.alive ++ [s.nextId] }
          hv halive1 hnd (fun e he => Nat.lt_succ_of_lt (hlt e he))
      rw [hfold, hs1]
      have harith : s.nextId + 1 + createdCount rest =
          s.nextId + createdCount (EntityOp.create :: rest) := by
        rw [show createdCount (EntityOp.create :: rest) =
          createdCount rest + 1 from rfl]
        omega
      refine ⟨by rw [h1, harith], by rw [h2, harith], h3, ?_, ?_⟩
      · intro x
        rw [h4]
        rw [show removedIds (EntityOp.create :: rest) = removedIds rest from rfl]
      · intro x hx
        have hb := h5 x hx
        rw [← harith]
        exact hb
    | remove e =>
      rw [validOps, Bool.and_eq_true, decide_eq_true_eq] at hv
      obtain ⟨he, hv⟩ := hv
      have hccount : createdCount (EntityOp.remove e :: rest) =
          createdCount rest := rfl
      have hrem : removedIds (EntityOp.remove e :: rest) = e :: removedIds rest := rfl
      by_cases htomb : e ∈ s.tomb
      · have hs1 : applyEntityOp s (EntityOp.remove e) = s := by
          rw [applyEntityOp, removeEntity, if_neg]
          intro hcontr
          exact hcontr.2 htomb
        obtain ⟨h1, h2, h3, h4, h5⟩ := ih s hv halive hnd hlt
        rw [hfold, hs1, hccount, hrem]
        refine ⟨h1, h2, h3, ?_, h5⟩
        intro x
        rw [h4, List.mem_cons]
        constructor
        · rintro (hx | hx)
          · exact Or.inl hx
          · exact Or.inr (Or.inr hx)
        · rintro (hx | rfl | hx)
          · exact Or.inl hx
          · exact Or.inl htomb
          · exact Or.inr hx
      · have hmem_alive : e ∈ s.alive := by
          rw [halive, List.mem_range]
          exact he
        have hs1 : applyEntityOp s (EntityOp.remove e) =
            { s with tomb := s.tomb ++ [e] } := by
          rw [applyEntityOp, removeEntity, if_pos ⟨hmem_alive, htomb⟩]
        have hnd1 : (s.tomb ++ [e]).Nodup := by
          rw [List.nodup_append]
          refine ⟨hnd, List.nodup_singleton _, ?_⟩
          intro a ha hb
          rw [List.mem_singleton] at hb
          subst hb
          exact htomb ha
        have hlt1 : ∀ x ∈ s.tomb ++ [e], x < s.nextId := by
          intro x hx
          rcases List.mem_append.mp hx with hx | hx
          · exact hlt x hx
          · rw [List.mem_singleton] at hx
            subst hx
            exact he
        obtain ⟨h1, h2, h3, h4, h5⟩ := ih { s with tomb := s.tomb ++ [e] }
          hv halive hnd1 hlt1
        rw [hfold, hs1, hccount, hrem]
        refine ⟨h1, h2, h3, ?_, h5⟩
        intro x
        rw [h4, List.mem_append, List.mem_singleton, List.mem_cons]
        constructor
        · rintro ((hx | rfl) | hx)
          · exact Or.inl hx
          · exact Or.inr (Or.inl rfl)
          · exact Or.inr (Or.inr hx)
        · rintro (hx | rfl | hx)
          · exact Or.inl (Or.inl hx)
          · exact Or.inl (Or.inr rfl)
          · exact Or.inr hx

/-- Claim C5: for every well-formed finite sequence of `CreateEntity` and
`RemoveEntity` calls, `EntityCount()` evaluated after `ProcessRemovals`
equals the number of distinct entities created minus the number of distinct
entities removed, and removing the same entity twice is the same as removing
it once (no double decrement). -/
theorem c5_entity_count_after_removals (ops : List EntityOp)
    (hv : validOps 0 ops = true) :
    entityCount (processRemovals (runEntityOps ecm0 ops)) =
      createdCount ops - (removedIds ops).dedup.length ∧
    (∀ s e, removeEntity (removeEntity s e) e = removeEntity s e) := by
  constructor
  · obtain ⟨h1, h2, h3, h4, h5⟩ := runEntityOps_spec ops ecm0 hv rfl
      List.nodup_nil (by intro x hx; cases hx)
    show ((runEntityOps ecm0 ops).alive.filter
      (fun e => e ∉ (runEntityOps ecm0 ops).tomb)).length = _
    rw [h2]
    rw [show ecm0.nextId + createdCount ops = createdCount ops from Nat.zero_add _]
    rw [length_filter_not_mem_range (createdCount ops) _ h3 ?hb]
    case hb =>
      intro x hx
      have hb2 := h5 x hx
      rw [show ecm0.nextId + createdCount ops = createdCount ops from
        Nat.zero_add _] at hb2
      exact hb2
    congr 1
    apply length_eq_of_nodup_of_mem_iff _ _ h3 (List.nodup_dedup _)
    intro x
    rw [h4, List.mem_dedup]
    constructor
    · rintro (hx | hx)
      · cases hx
      · exact hx
    · exact fun hx => Or.inr hx
  · intro s e
    by_cases h : e ∈ s.alive ∧ e ∉ s.tomb
    · have h1 : removeEntity s e = { s with tomb := s.tomb ++ [e] } := by
        rw [removeEntity, if_pos h]
      rw [h1, removeEntity, if_neg]
      intro hcontr
      exact hcontr.2 (by simp)
    · have h1 : removeEntity s e = s := by
        rw [removeEntity, if_neg h]
      rw [h1, h1]

/-- Witness for C5: three creates and a double removal of entity 0 plus a
removal of entity 2 leave exactly one entity after processing removals. -/
theorem c5_entity_count_after_removals_witness :
    entityCount (processRemovals (runEntityOps ecm0
      [EntityOp.create, EntityOp.create, EntityOp.remove 0, EntityOp.remove 0,
       EntityOp.create, EntityOp.remove 2])) = 1 := by
  have h := (c5_entity_count_after_removals
    [EntityOp.create, EntityOp.create, EntityOp.remove 0, EntityOp.remove 0,
     EntityOp.create, EntityOp.remove 2] (by decide)).1
  rw [h]
  decide

/-- Claim C8: component identity is by tag, not by wrapped value type — the
two velocity-seed component types declared in
`src/include/gz/sim/components/LinearVelocitySeed.hh` are distinct while
wrapping the same 3-vector value type, they coexist with independent values
on one entity, and every ECM state reachable by any call sequence carries at
most one component per (entity, tag) attachment key. -/
theorem c8_component_identity_by_tag :
    LinearVelocitySeed ≠ WorldLinearVelocitySeed ∧
    LinearVelocitySeed.wraps = WorldLinearVelocitySeed.wraps ∧
    (getComponent coexistECM 0 Tag.linearVelocitySeed = some (Val.vec3 1 2 3) ∧
     getComponent coexistECM 0 Tag.worldLinearVelocitySeed = some (Val.vec3 4 5 6)) ∧
    ∀ ops : List EcmOp, (compKeys (runEcmOps ecm0 ops)).Nodup := by
  refine ⟨by decide, rfl, by decide, ?_⟩
  intro ops
  have hgen : ∀ (l : List EcmOp) (s : ECM),
      (compKeys s).Nodup → (compKeys (runEcmOps s l)).Nodup := by
    intro l
    induction l with
    | nil => exact fun s h => h
    | cons op rest ih => exact fun s h => ih _ (compKeys_nodup_applyEcmOp s op h)
  exact hgen ops ecm0 (by decide)

/-- After `removeComponent s e t`, entity `e` no longer holds a live
component of tag `t`. -/
theorem hasTag_removeComponent_self (s : ECM) (e : Nat) (t : Tag) :
    hasTag (removeComponent s e t) e t = false := by
  rw [Bool.eq_false_iff]
  intro hcontr
  rw [hasTag, List.any_eq_true] at hcontr
  obtain ⟨c, hc, hpred⟩ := hcontr
  rw [removeComponent] at hc
  simp only [List.mem_filter] at hc
  rw [hpred] at hc
  simp at hc

/-- Claim C10: a freshly constructed `SimulationRunner` is not running, has an
iteration counter of zero, a zero accumulated sleep offset and a default
update period of 2 milliseconds (a 500 Hz update rate) until
`SetUpdatePeriod` is called, per the default member initializers in
`src/src/SimulationRunner.hh`. -/
theorem c10_fresh_runner_defaults (systems : List SystemRec) (ecm : ECM)
    (r : Runner) (p : Nat) :
    (mkRunner systems ecm).RunningFlag = false ∧
    (mkRunner systems ecm).IterationCount = 0 ∧
    (mkRunner systems ecm).sleepOffset = 0 ∧
    (mkRunner systems ecm).updatePeriod = twoMilliseconds ∧
    nsPerSecond / (mkRunner systems ecm).updatePeriod = 500 ∧
    ((mkRunner systems ecm).SetUpdatePeriod p).updatePeriod = p ∧
    (r.SetUpdatePeriod p).updatePeriod = p :=
  ⟨rfl, rfl, rfl, rfl,
    by norm_num [mkRunner, nsPerSecond, twoMilliseconds], rfl, rfl⟩

/-- Claim C4: when one `Run` call is already active (the running flag is
set), a second `Run` call fails with `AlreadyRunning` immediately and leaves
the whole runner state — ECM contents, iteration counter and the active
run's running flag — unchanged. -/
theorem c4_concurrent_run_fails_already_running (r : Runner) (stop : Nat → Bool)
    (target fuel : Nat) (h : r.RunningFlag = true) :
    runnerRun stop target fuel r = (r, RunOutcome.alreadyRunning) := by
  have h2 : r.running = true := h
  simp [runnerRun, h2]

/-- Witness for C4 at a concrete already-running runner. -/
theorem c4_concurrent_run_fails_already_running_witness :
    runnerRun (fun _ => false) 5 10 { mkRunner [] ecm0 with running := true } =
      ({ mkRunner [] ecm0 with running := true }, RunOutcome.alreadyRunning) :=
  c4_concurrent_run_fails_already_running _ _ _ _ rfl

/-- Claim C6: attaching tag `t` to entity `e` while `e` already carries a
live component of that tag (no intervening removal) fails with
`DuplicateComponent`; attaching after a removal of `t` from `e` succeeds. -/
theorem c6_duplicate_component_contract (s : ECM) (e : Nat) (t : Tag) (v w : Val)
    (he : e ∈ s.alive) :
    (hasTag s e t = true →
      addComponent s e t v = Except.error EcmError.duplicateComponent) ∧
    ∃ s2, addComponent (removeComponent s e t) e t w = Except.ok s2 ∧
      hasTag s2 e t = true := by
  constructor
  · intro h
    simp [addComponent, he, h]
  · have he2 : e ∈ (removeComponent s e t).alive := he
    refine ⟨{ removeComponent s e t with
        comps := (removeComponent s e t).comps ++ [⟨e, t, w, ChangeMark.created⟩] },
      ?_, ?_⟩
    · rw [addComponent, if_pos he2, if_neg (by simp [hasTag_removeComponent_self])]
    · rw [hasTag]
      simp

/-- Witness for C6 at the spec's scenario state: entity 0 already carries
`position`, so a second attach fails, while attach-after-remove succeeds. -/
theorem c6_duplicate_component_contract_witness :
    (hasTag scenarioECM 0 Tag.position = true →
      addComponent scenarioECM 0 Tag.position (Val.vec3 9 9 9) =
        Except.error EcmError.duplicateComponent) ∧
    ∃ s2, addComponent (removeComponent scenarioECM 0 Tag.position) 0 Tag.position
        (Val.vec3 8 8 8) = Except.ok s2 ∧ hasTag s2 0 Tag.position = true :=
  c6_duplicate_component_contract scenarioECM 0 Tag.position
    (Val.vec3 9 9 9) (Val.vec3 8 8 8) (by decide)

/-- Claim C7: `EntitiesMatching(required, excluded)` yields an entity iff it
holds every required tag and no excluded tag, against current (not buffered)
state; the yielded sequence is a stable suborder of the master entity list;
and the spec's scenario — three entities, `position` on the first two —
yields exactly `[0, 1]`, and exactly `[1]` after removing entity 0 and
processing removals. -/
theorem c7_entities_matching_characterisation (s : ECM) (req exc : List Tag)
    (e : Nat) :
    (e ∈ entitiesMatching s req exc ↔
      e ∈ s.alive ∧ (∀ t ∈ req, hasTag s e t = true) ∧
        (∀ t ∈ exc, hasTag s e t = false)) ∧
    (entitiesMatching s req exc).Sublist s.alive ∧
    entitiesMatching scenarioECM [Tag.position] [] = [0, 1] ∧
    entitiesMatching (processRemovals (removeEntity scenarioECM 0))
      [Tag.position] [] = [1] := by
  refine ⟨?_, List.filter_sublist _, by decide, by decide⟩
  simp [entitiesMatching, List.mem_filter, List.all_eq_true, Bool.and_eq_true,
    Bool.not_eq_true']

/-- One scheduled PostUpdate unit touches exactly the slot of the system it
runs: index `i` is transformed by `postApply`, all other slots are
untouched. -/
theorem applyPostAt_getElem? (info : UpdateInfo) (ecm : ECM)
    (l : List SystemRec) (i j : Nat) :
    (applyPostAt info ecm l i)[j]? =
      if i = j then (l[j]?).map (postApply info ecm) else l[j]? := by
  unfold applyPostAt
  split
  next s hl =>
    rw [List.getElem?_set]
    by_cases hij : i = j
    · subst hij
      have hlen : i < l.length := by
        by_contra hcon
        rw [List.getElem?_eq_none (Nat.le_of_not_lt hcon)] at hl
        cases hl
      rw [if_pos rfl, if_pos rfl, if_pos hlen, hl]
      rfl
    · rw [if_neg hij, if_neg hij]
  next hl =>
    by_cases hij : i = j
    · subst hij
      rw [if_pos rfl, hl]
      rfl
    · rw [if_neg hij]

/-- Running the PostUpdate units in any duplicate-free scheduler order:
slot `j` is transformed exactly when `j` was scheduled, and untouched
otherwise. -/
theorem runPostSched_getElem? (info : UpdateInfo) (ecm : ECM) :
    ∀ (order : List Nat) (l : List SystemRec) (j : Nat), order.Nodup →
    (runPostSched info ecm l order)[j]? =
      if j ∈ order then (l[j]?).map (postApply info ecm) else l[j]? := by
  intro order
  induction order with
  | nil =>
    intro l j _
    simp [runPostSched]
  | cons a rest ih =>
    intro l j hnd
    rw [List.nodup_cons] at hnd
    obtain ⟨ha, hnd⟩ := hnd
    have hfold : runPostSched info ecm l (a :: rest) =
        runPostSched info ecm (applyPostAt info ecm l a) rest := rfl
    rw [hfold, ih _ j hnd, applyPostAt_getElem?]
    by_cases hjr : j ∈ rest
    · have hne : a ≠ j := fun hcontr => ha (hcontr ▸ hjr)
      rw [if_pos hjr, if_neg hne, if_pos (List.mem_cons.mpr (Or.inr hjr))]
    · rw [if_neg hjr]
      by_cases haj : a = j
      · subst haj
        rw [if_pos rfl, if_pos (List.mem_cons.mpr (Or.inl rfl))]
      · rw [if_neg haj, if_neg]
        intro hc
        rcases List.mem_cons.mp hc with hc2 | hc2
        · exact haj hc2.symm
        · exact hjr hc2

/-- Claim C9: with PostUpdate callbacks read-only with respect to the ECM
(enforced by their type) and each aggregating into its own system state,
executing the PostUpdate batch in any scheduler-chosen interleaving produces
exactly the systems produced by the worker-pool batch, which is also what
sequential execution in registration order produces — parallelism changes
timing, not results. -/
theorem c9_parallel_postupdate_deterministic (info : UpdateInfo) (ecm : ECM)
    (systems : List SystemRec) (order : List Nat)
    (hperm : order.Perm (List.range systems.length)) :
    runPostSched info ecm systems order = runPostBatch info ecm systems ∧
    runPostSched info ecm systems (List.range systems.length) =
      runPostBatch info ecm systems := by
  have hmain : ∀ ord : List Nat, ord.Perm (List.range systems.length) →
      runPostSched info ecm systems ord = runPostBatch info ecm systems := by
    intro ord hp
    have hnd : ord.Nodup := hp.nodup_iff.mpr (List.nodup_range _)
    apply List.ext_getElem?
    intro j
    rw [runPostSched_getElem? info ecm ord systems j hnd]
    rw [runPostBatch, List.getElem?_map]
    by_cases hj : j ∈ ord
    · rw [if_pos hj]
    · rw [if_neg hj]
      have hge : systems.length ≤ j := by
        by_contra hcon
        exact hj (hp.mem_iff.mpr (List.mem_range.mpr (Nat.lt_of_not_le hcon)))
      rw [List.getElem?_eq_none hge]
      rfl
  exact ⟨hmain order hperm, hmain _ (List.Perm.refl _)⟩

/-- Witness for C9: two read-only aggregating systems, run in the reversed
scheduler order, produce exactly the batch result. -/
theorem c9_parallel_postupdate_deterministic_witness :
    runPostSched ⟨2000000, 2000000, false, 0⟩ scenarioECM
        [countingSystem, sumIterSystem] [1, 0] =
      runPostBatch ⟨2000000, 2000000, false, 0⟩ scenarioECM
        [countingSystem, sumIterSystem] ∧
    runPostSched ⟨2000000, 2000000, false, 0⟩ scenarioECM
        [countingSystem, sumIterSystem] (List.range 2) =
      runPostBatch ⟨2000000, 2000000, false, 0⟩ scenarioECM
        [countingSystem, sumIterSystem] :=
  c9_parallel_postupdate_deterministic ⟨2000000, 2000000, false, 0⟩ scenarioECM
    [countingSystem, sumIterSystem] [1, 0] (by decide)

/-- One iteration advances the iteration counter by exactly one. -/
theorem stepIteration_iterations (r : Runner) :
    (stepIteration r).iterations = r.iterations + 1 := rfl

/-- `k` whole iterations advance the iteration counter by exactly `k`. -/
theorem stepIteration_iterate_iterations (r : Runner) (k : Nat) :
    (stepIteration^[k] r).iterations = r.iterations + k := by
  induction k with
  | zero => rfl
  | succ n ih =>
    rw [Function.iterate_succ_apply', stepIteration_iterations, ih]
    omega

/-- The loop returns at once when a positive requested count is already
reached. -/
theorem runLoop_exit_count (stop : Nat → Bool) (target start fuel : Nat)
    (r : Runner) (h1 : target ≠ 0) (h2 : start + target ≤ r.iterations) :
    runLoop stop target start fuel r = r := by
  cases fuel with
  | zero => rfl
  | succ f => rw [runLoop, if_pos ⟨h1, h2⟩]

/-- The loop returns at once when the stop flag is observed at the
boundary. -/
theorem runLoop_exit_stop (stop : Nat → Bool) (target start fuel : Nat)
    (r : Runner) (h1 : ¬(target ≠ 0 ∧ start + target ≤ r.iterations))
    (h2 : stop r.iterations = true) (h3 : 1 ≤ fuel) :
    runLoop stop target start fuel r = r := by
  cases fuel with
  | zero => exact absurd h3 (by omega)
  | succ f => rw [runLoop, if_neg h1, if_pos h2]

/-- While neither exit condition fires, the loop executes whole iterations:
`k` clear boundary checks advance the state by `k` full steps. -/
theorem runLoop_advance (stop : Nat → Bool) (target start : Nat) :
    ∀ (k fuel : Nat) (r : Runner), k ≤ fuel →
    (∀ j, j < k → stop (r.iterations + j) = false) →
    (target ≠ 0 → r.iterations + k ≤ start + target) →
    runLoop stop target start fuel r =
      runLoop stop target start (fuel - k) (stepIteration^[k] r) := by
  intro k
  induction k with
  | zero => intro fuel r _ _ _; rfl
  | succ n ih =>
    intro fuel r hfuel hstop htarget
    cases fuel with
    | zero => exact absurd hfuel (by omega)
    | succ f =>
      have hnotcount : ¬(target ≠ 0 ∧ start + target ≤ r.iterations) := by
        rintro ⟨ht, hc⟩
        have := htarget ht
        omega
      have hnotstop : stop r.iterations = false := by
        simpa using hstop 0 (Nat.succ_pos n)
      rw [runLoop, if_neg hnotcount, if_neg (by rw [hnotstop]; simp)]
      have hstep := ih f (stepIteration r) (Nat.le_of_succ_le_succ hfuel)
        ?hs ?ht
      case hs =>
        intro j hj
        have hsh := hstop (j + 1) (Nat.succ_lt_succ hj)
        have he : (stepIteration r).iterations + j = r.iterations + (j + 1) := by
          rw [stepIteration_iterations]
          omega
        rw [he]
        exact hsh
      case ht =>
        intro ht
        have := htarget ht
        rw [stepIteration_iterations]
        omega
      rw [hstep, Function.iterate_succ_apply]
      have hfe : f + 1 - (n + 1) = f - n := by omega
      rw [hfe]

/-- With no stop request for `n` boundaries, the loop with positive target
`n` executes exactly `n` whole iterations. -/
theorem runLoop_runs_full (stop : Nat → Bool) (n fuel : Nat) (r : Runner)
    (hn : 0 < n) (hfuel : n ≤ fuel)
    (hstop : ∀ j, j < n → stop (r.iterations + j) = false) :
    runLoop stop n r.iterations fuel r = stepIteration^[n] r := by
  rw [runLoop_advance stop n r.iterations n fuel r hfuel hstop
    (fun _ => Nat.le_refl _)]
  apply runLoop_exit_count
  · omega
  · rw [stepIteration_iterate_iterations]

/-- With the stop flag first observed at the `k`-th boundary (and the count
not yet reached), the loop executes exactly `k` whole iterations and
returns. -/
theorem runLoop_stops_at (stop : Nat → Bool) (target k fuel : Nat) (r : Runner)
    (hfuel : k + 1 ≤ fuel) (htarget : target = 0 ∨ k < target)
    (h1 : ∀ j, j < k → stop (r.iterations + j) = false)
    (h2 : stop (r.iterations + k) = true) :
    runLoop stop target r.iterations fuel r = stepIteration^[k] r := by
  rw [runLoop_advance stop target r.iterations k fuel r (by omega) h1 ?ht]
  case ht =>
    intro htt
    rcases htarget with h | h
    · exact absurd h htt
    · omega
  apply runLoop_exit_stop
  · rintro ⟨htt, hc⟩
    rw [stepIteration_iterate_iterations] at hc
    rcases htarget with h | h
    · exact htt h
    · omega
  · rw [stepIteration_iterate_iterations]
    exact h2
  · omega

/-- Entering `Run` on an idle runner: the guard passes and the loop runs from
the running state. -/
theorem runnerRun_not_running (stop : Nat → Bool) (target fuel : Nat)
    (r : Runner) (h : r.running = false) :
    runnerRun stop target fuel r =
      (({ runLoop stop target r.iterations fuel { r with running := true } with
          running := false }),
       if target ≠ 0 ∧ r.iterations + target ≤
           (runLoop stop target r.iterations fuel
             { r with running := true }).iterations
       then RunOutcome.completedFull else RunOutcome.stoppedEarly) := by
  rw [runnerRun, if_neg (by rw [h]; simp)]

/-- Claim C1: `Run(n)` with positive `n` executes exactly `n` iterations when
no stop request arrives, reporting a completed full count; executes only the
`k` iterations before an early stop, reporting an incomplete run; and
`Run(0)` runs until the stop request is observed, executing exactly the
iterations before it. -/
theorem c1_run_iteration_counts (r : Runner) (stop : Nat → Bool)
    (n k fuel : Nat) (hrun : r.RunningFlag = false) :
    (0 < n → n ≤ fuel → (∀ j, j < n → stop (r.iterations + j) = false) →
      (runnerRun stop n fuel r).2 = RunOutcome.completedFull ∧
      (runnerRun stop n fuel r).1.IterationCount = r.iterations + n) ∧
    (0 < n → k < n → k + 1 ≤ fuel →
      (∀ j, j < k → stop (r.iterations + j) = false) →
      stop (r.iterations + k) = true →
      (runnerRun stop n fuel r).2 = RunOutcome.stoppedEarly ∧
      (runnerRun stop n fuel r).1.IterationCount = r.iterations + k) ∧
    (k + 1 ≤ fuel → (∀ j, j < k → stop (r.iterations + j) = false) →
      stop (r.iterations + k) = true →
      (runnerRun stop 0 fuel r).1.IterationCount = r.iterations + k) := by
  have hrun2 : r.running = false := hrun
  refine ⟨?_, ?_, ?_⟩
  · intro hn hfuel hstop
    have hloop : runLoop stop n r.iterations fuel { r with running := true } =
        stepIteration^[n] { r with running := true } :=
      runLoop_runs_full stop n fuel { r with running := true } hn hfuel hstop
    rw [runnerRun_not_running stop n fuel r hrun2, hloop]
    constructor
    · show (if n ≠ 0 ∧ r.iterations + n ≤ _ then _ else _) = _
      rw [if_pos ⟨by omega, by rw [stepIteration_iterate_iterations]⟩]
    · show (stepIteration^[n] { r with running := true }).iterations = _
      rw [stepIteration_iterate_iterations]
  · intro hn hk hfuel hstop1 hstop2
    have hloop : runLoop stop n r.iterations fuel { r with running := true } =
        stepIteration^[k] { r with running := true } :=
      runLoop_stops_at stop n k fuel { r with running := true } hfuel
        (Or.inr hk) hstop1 hstop2
    rw [runnerRun_not_running stop n fuel r hrun2, hloop]
    constructor
    · show (if n ≠ 0 ∧ r.iterations + n ≤ _ then _ else _) = _
      rw [if_neg]
      rintro ⟨-, hc⟩
      rw [stepIteration_iterate_iterations] at hc
      have hd : ({ r with running := true } : Runner).iterations =
        r.iterations := rfl
      rw [hd] at hc
      omega
    · show (stepIteration^[k] { r with running := true }).iterations = _
      rw [stepIteration_iterate_iterations]
  · intro hfuel hstop1 hstop2
    have hloop : runLoop stop 0 r.iterations fuel { r with running := true } =
        stepIteration^[k] { r with running := true } :=
      runLoop_stops_at stop 0 k fuel { r with running := true } hfuel
        (Or.inl rfl) hstop1 hstop2
    rw [runnerRun_not_running stop 0 fuel r hrun2, hloop]
    show (stepIteration^[k] { r with running := true }).iterations = _
    rw [stepIteration_iterate_iterations]

/-- Witness for C1: with a stop request arriving at the third boundary,
`Run(5)` reports an incomplete run after exactly 3 iterations. -/
theorem c1_run_iteration_counts_witness :
    (runnerRun (fun i => decide (3 ≤ i)) 5 10 (mkRunner [] ecm0)).2 =
      RunOutcome.stoppedEarly ∧
    (runnerRun (fun i => decide (3 ≤ i)) 5 10 (mkRunner [] ecm0)).1.IterationCount
      = 3 :=
  (c1_run_iteration_counts (mkRunner [] ecm0) (fun i => decide (3 ≤ i))
    5 3 10 rfl).2.1 (by decide) (by decide) (by decide) (by decide) (by decide)

/-- Claim C3: a stop request that arrives during iteration `k` is observed
only at the iteration boundary — `Run` returns a state equal to exactly `k`
whole-iteration steps (no iteration is cut mid-phase), the iteration counter
reflects exactly `k` completed iterations, and the runner is no longer
running. -/
theorem c3_stop_observed_at_boundary (r : Runner) (stop : Nat → Bool)
    (target k fuel : Nat) (hrun : r.RunningFlag = false)
    (hfuel : k + 1 ≤ fuel) (htarget : target = 0 ∨ k < target)
    (h1 : ∀ j, j < k → stop (r.iterations + j) = false)
    (h2 : stop (r.iterations + k) = true) :
    (runnerRun stop target fuel r).1 =
      { stepIteration^[k] { r with running := true } with running := false } ∧
    (runnerRun stop target fuel r).1.IterationCount = r.iterations + k ∧
    (runnerRun stop target fuel r).1.RunningFlag = false := by
  have hrun2 : r.running = false := hrun
  have hloop : runLoop stop target r.iterations fuel { r with running := true } =
      stepIteration^[k] { r with running := true } :=
    runLoop_stops_at stop target k fuel { r with running := true } hfuel
      htarget h1 h2
  rw [runnerRun_not_running stop target fuel r hrun2, hloop]
  refine ⟨rfl, ?_, rfl⟩
  show (stepIteration^[k] { r with running := true }).iterations = _
  rw [stepIteration_iterate_iterations]

/-- Witness for C3: a stop request at the second boundary of an unbounded
`Run(0)` leaves exactly 2 completed iterations and a non-running runner. -/
theorem c3_stop_observed_at_boundary_witness :
    (runnerRun (fun i => decide (2 ≤ i)) 0 5 (mkRunner [] ecm0)).1 =
      { stepIteration^[2] { mkRunner [] ecm0 with running := true } with
        running := false } ∧
    (runnerRun (fun i => decide (2 ≤ i)) 0 5 (mkRunner [] ecm0)).1.IterationCount
      = 2 ∧
    (runnerRun (fun i => decide (2 ≤ i)) 0 5 (mkRunner [] ecm0)).1.RunningFlag
      = false :=
  c3_stop_observed_at_boundary (mkRunner [] ecm0) (fun i => decide (2 ≤ i))
    0 2 5 rfl (by decide) (Or.inl rfl) (by decide) (by decide)

/-- The PreUpdate replay emits exactly one event per system implementing
PreUpdate, in list order, independent of the ECM threaded through. -/
theorem runPreUpdatesT_events (info : UpdateInfo) :
    ∀ (l : List (Nat × SystemRec)) (ecm : ECM),
    (runPreUpdatesT info l ecm).2 =
      (l.filter (fun p => p.2.hasPreUpdate)).map (fun p => Ev.preUpdate p.1) := by
  intro l
  induction l with
  | nil => intro ecm; rfl
  | cons p rest ih =>
    intro ecm
    obtain ⟨i, s⟩ := p
    by_cases h : s.hasPreUpdate = true
    · simp only [runPreUpdatesT, if_pos h]
      rw [ih, List.filter_cons, if_pos h, List.map_cons]
    · simp only [runPreUpdatesT, if_neg h]
      rw [ih, List.filter_cons, if_neg h]

/-- The Update replay emits exactly one event per system implementing
Update, in list order, independent of the ECM threaded through. -/
theorem runUpdatesT_events (info : UpdateInfo) :
    ∀ (l : List (Nat × SystemRec)) (ecm : ECM),
    (runUpdatesT info l ecm).2 =
      (l.filter (fun p => p.2.hasUpdate)).map (fun p => Ev.update p.1) := by
  intro l
  induction l with
  | nil => intro ecm; rfl
  | cons p rest ih =>
    intro ecm
    obtain ⟨i, s⟩ := p
    by_cases h : s.hasUpdate = true
    · simp only [runUpdatesT, if_pos h]
      rw [ih, List.filter_cons, if_pos h, List.map_cons]
    · simp only [runUpdatesT, if_neg h]
      rw [ih, List.filter_cons, if_neg h]

/-- The PreUpdate replay threads the ECM exactly like the plain sequential
PreUpdate phase. -/
theorem runPreUpdatesT_state (info : UpdateInfo) :
    ∀ (l : List SystemRec) (i : Nat) (ecm : ECM),
    (runPreUpdatesT info (List.enumFrom i l) ecm).1 =
      runPreUpdates info l ecm := by
  intro l
  induction l with
  | nil => intro i ecm; rfl
  | cons s rest ih =>
    intro i ecm
    by_cases h : s.hasPreUpdate = true
    · show (runPreUpdatesT info ((i, s) :: List.enumFrom (i + 1) rest) ecm).1 = _
      simp only [runPreUpdatesT, if_pos h]
      rw [ih]
      show runPreUpdates info rest (s.preUpdateFn info ecm) =
        runPreUpdates info rest
          (if s.hasPreUpdate = true then s.preUpdateFn info ecm else ecm)
      rw [if_pos h]
    · show (runPreUpdatesT info ((i, s) :: List.enumFrom (i + 1) rest) ecm).1 = _
      simp only [runPreUpdatesT, if_neg h]
      rw [ih]
      show runPreUpdates info rest ecm =
        runPreUpdates info rest
          (if s.hasPreUpdate = true then s.preUpdateFn info ecm else ecm)
      rw [if_neg h]

/-- The Update replay threads the ECM exactly like the plain sequential
Update phase. -/
theorem runUpdatesT_state (info : UpdateInfo) :
    ∀ (l : List SystemRec) (i : Nat) (ecm : ECM),
    (runUpdatesT info (List.enumFrom i l) ecm).1 =
      runUpdates info l ecm := by
  intro l
  induction l with
  | nil => intro i ecm; rfl
  | cons s rest ih =>
    intro i ecm
    by_cases h : s.hasUpdate = true
    · show (runUpdatesT info ((i, s) :: List.enumFrom (i + 1) rest) ecm).1 = _
      simp only [runUpdatesT, if_pos h]
      rw [ih]
      show runUpdates info rest (s.updateFn info ecm) =
        runUpdates info rest
          (if s.hasUpdate = true then s.updateFn info ecm else ecm)
      rw [if_pos h]
    · show (runUpdatesT info ((i, s) :: List.enumFrom (i + 1) rest) ecm).1 = _
      simp only [runUpdatesT, if_neg h]
      rw [ih]
      show runUpdates info rest ecm =
        runUpdates info rest
          (if s.hasUpdate = true then s.updateFn info ecm else ecm)
      rw [if_neg h]

/-- Registration indices extracted by a capability filter are strictly
increasing — i.e. the filtered callbacks run in registration order. -/
theorem capIdx_pairwise (p : SystemRec → Bool) (systems : List SystemRec) :
    List.Pairwise (fun a b => a < b) (capIdx p systems) := by
  have h1 : List.Pairwise (fun a b => a < b) (systems.enum.map Prod.fst) := by
    rw [List.enum_map_fst]
    exact List.pairwise_lt_range _
  have h2 : ((systems.enum.filter (fun q => p q.2)).map Prod.fst).Sublist
      (systems.enum.map Prod.fst) :=
    List.Sublist.map _ (List.filter_sublist _)
  exact List.Pairwise.sublist h2 h1

/-- Claim C2: each iteration runs its observable events in the fixed order
PreUpdate phase (one event per implementing system, registration order),
then Update phase (likewise), then the PostUpdate worker-pool batch, then
ECM maintenance, then the pacing sleep, then the counter increment; the
replay threads state exactly like `stepIteration`, whose ECM is the
post-Update ECM with buffered removals applied and the change epoch
advanced, and whose counter is incremented by one. -/
theorem c2_iteration_phase_order (r : Runner) :
    iterationTrace r =
      (capIdx (fun s => s.hasPreUpdate) r.systems).map Ev.preUpdate ++
      (capIdx (fun s => s.hasUpdate) r.systems).map Ev.update ++
      (capIdx (fun s => s.hasPostUpdate) r.systems).map Ev.postUpdate ++
      [Ev.ecmMaintenance, Ev.pacingSleep, Ev.counterIncrement] ∧
    List.Pairwise (fun a b => a < b)
      (capIdx (fun s => s.hasPreUpdate) r.systems) ∧
    List.Pairwise (fun a b => a < b)
      (capIdx (fun s => s.hasUpdate) r.systems) ∧
    List.Pairwise (fun a b => a < b)
      (capIdx (fun s => s.hasPostUpdate) r.systems) ∧
    (runPreUpdatesT (mkInfo r) r.systems.enum r.ecm).1 =
      runPreUpdates (mkInfo r) r.systems r.ecm ∧
    (runUpdatesT (mkInfo r) r.systems.enum
        (runPreUpdates (mkInfo r) r.systems r.ecm)).1 =
      runUpdates (mkInfo r) r.systems
        (runPreUpdates (mkInfo r) r.systems r.ecm) ∧
    (stepIteration r).ecm = clearEpoch (processRemovals (runUpdates (mkInfo r)
      r.systems (runPreUpdates (mkInfo r) r.systems r.ecm))) ∧
    (stepIteration r).systems = runPostBatch (mkInfo r) (runUpdates (mkInfo r)
      r.systems (runPreUpdates (mkInfo r) r.systems r.ecm)) r.systems ∧
    (stepIteration r).iterations = r.iterations + 1 := by
  refine ⟨?_, capIdx_pairwise _ _, capIdx_pairwise _ _, capIdx_pairwise _ _,
    runPreUpdatesT_state (mkInfo r) r.systems 0 r.ecm, ?_, rfl, rfl, rfl⟩
  · rw [iterationTrace, runPreUpdatesT_events, runUpdatesT_events]
    have hpre : (capIdx (fun s => s.hasPreUpdate) r.systems).map Ev.preUpdate =
        (r.systems.enum.filter (fun q => q.2.hasPreUpdate)).map
          (fun q => Ev.preUpdate q.1) := by
      rw [capIdx, List.map_map]
      rfl
    have hupd : (capIdx (fun s => s.hasUpdate) r.systems).map Ev.update =
        (r.systems.enum.filter (fun q => q.2.hasUpdate)).map
          (fun q => Ev.update q.1) := by
      rw [capIdx, List.map_map]
      rfl
    have hpost : (capIdx (fun s => s.hasPostUpdate) r.systems).map Ev.postUpdate =
        (r.systems.enum.filter (fun q => q.2.hasPostUpdate)).map
          (fun q => Ev.postUpdate q.1) := by
      rw [capIdx, List.map_map]
      rfl
    rw [hpre, hupd, hpost]
    rfl
  · rw [← runPreUpdatesT_state (mkInfo r) r.systems 0 r.ecm]
    exact runUpdatesT_state (mkInfo r) r.systems 0 _

end GzSim
